import Mathlib

/-!
Verification of the panel-detection pipeline in YOLO/ordered_detection.py.

The embedding models box coordinates as exact rationals (the source computes
with Python floats; all claims under study concern the exact arithmetic the
source expresses).  Fallible Python arithmetic (division that can raise
ZeroDivisionError) is modelled with Except Unit; external collaborators
(the YOLO detector, cv2 image decoding and Hough line detection) enter as
parameters: a detection result is an Option so that None models an internal
failure caught by the corresponding try/except block.

Python integer helpers used below:
 - Python int(x) truncates toward zero: Int.tdiv for quotients, truncQ below
   for rational operands;
 - Python a // b is floor division: Int.fdiv;
 - Python list.sort is a stable sort by key: List.insertionSort with the
   lexicographic at-most relation on the key.
-/

set_option maxRecDepth 10000
set_option maxHeartbeats 1000000

/-- A detection box [x1, y1, x2, y2] with exact rational coordinates. -/
structure PBox where
  x1 : ℚ
  y1 : ℚ
  x2 : ℚ
  y2 : ℚ
deriving DecidableEq, Repr, Inhabited

/-- A box with integer coordinates, as produced by the int(c) casts in the
shrink-wrap stage and in the final JSON output. -/
structure IBox where
  x1 : Int
  y1 : Int
  x2 : Int
  y2 : Int
deriving DecidableEq, Repr, Inhabited

/-- A line segment (x1, y1, x2, y2) as returned by cv2.HoughLinesP. -/
structure GLine where
  x1 : Int
  y1 : Int
  x2 : Int
  y2 : Int
deriving DecidableEq, Repr, Inhabited

/-- One entry of the reading_order output: a 1-based index and a bbox. -/
structure Panel where
  index : Nat
  bbox : IBox
deriving DecidableEq, Repr, Inhabited

/-- Python int(c) on a rational value: truncation toward zero. -/
def truncQ (q : ℚ) : Int :=
  if 0 ≤ q then Rat.floor q else Rat.ceil q

/-- The int(c) casts applied to every box written to the output (and at the
top of the shrink-wrap loop). -/
def pbox_to_ibox (b : PBox) : IBox :=
  ⟨truncQ b.x1, truncQ b.y1, truncQ b.x2, truncQ b.y2⟩

/-- Reading an integer box back as a rational box (Python ints are floats
for the arithmetic of the later stages). -/
def ibox_to_pbox (b : IBox) : PBox :=
  ⟨(b.x1 : ℚ), (b.y1 : ℚ), (b.x2 : ℚ), (b.y2 : ℚ)⟩

/-- Python division on floats: raises ZeroDivisionError when the denominator
is zero, modelled as Except. -/
def divQ (a b : ℚ) : Except Unit ℚ :=
  if b = 0 then .error () else .ok (a / b)

/-- merge_boxes: a new box that encompasses both input boxes
(component-wise min of the top-left corner, max of the bottom-right). -/
def merge_boxes (b1 b2 : PBox) : PBox :=
  ⟨min b1.x1 b2.x1, min b1.y1 b2.y1, max b1.x2 b2.x2, max b1.y2 b2.y2⟩

/-- check_containment with threshold 0.9: true when the intersection area is
at least 90 percent of either box's area.  The source divides only after the
early return on an empty intersection, and evaluates the two ratios with a
short-circuiting or; both aspects are preserved. -/
def check_containment (b1 b2 : PBox) : Except Unit Bool :=
  let area1 := (b1.x2 - b1.x1) * (b1.y2 - b1.y1)
  let area2 := (b2.x2 - b2.x1) * (b2.y2 - b2.y1)
  let ix1 := max b1.x1 b2.x1
  let iy1 := max b1.y1 b2.y1
  let ix2 := min b1.x2 b2.x2
  let iy2 := min b1.y2 b2.y2
  if ix2 ≤ ix1 ∨ iy2 ≤ iy1 then .ok false
  else
    let inter := (ix2 - ix1) * (iy2 - iy1)
    match divQ inter area1 with
    | .error e => .error e
    | .ok r1 =>
      if 9/10 ≤ r1 then .ok true
      else
        match divQ inter area2 with
        | .error e => .error e
        | .ok r2 => .ok (decide (9/10 ≤ r2))

/-- The merge test applied to a pair (box1, box2) inside the scan loops of
merge_overlapping_boxes: containment first, then the same-row (50 percent
y-overlap) check followed by an overlap-over-smaller-area test against the
threshold. -/
def merge_condition (thr : ℚ) (b1 b2 : PBox) : Except Unit Bool :=
  match check_containment b1 b2 with
  | .error e => .error e
  | .ok true => .ok true
  | .ok false =>
    let y_overlap := min b1.y2 b2.y2 - max b1.y1 b2.y1
    let min_height := min (b1.y2 - b1.y1) (b2.y2 - b2.y1)
    if min_height * (1/2) < y_overlap then
      let x_overlap := max 0 (min b1.x2 b2.x2 - max b1.x1 b2.x1)
      let area1 := (b1.x2 - b1.x1) * (b1.y2 - b1.y1)
      let area2 := (b2.x2 - b2.x1) * (b2.y2 - b2.y1)
      match divQ (x_overlap * y_overlap) (min area1 area2) with
      | .error e => .error e
      | .ok r => .ok (decide (thr < r))
    else .ok false

/-- Find the first element of rest that merges with b (the inner j loop of
merge_overlapping_boxes for a fixed i); on success return the merged box and
rest with that element removed. -/
def mergeWithTail (thr : ℚ) (b : PBox) : List PBox → Except Unit (Option (PBox × List PBox))
  | [] => .ok none
  | c :: cs =>
    match merge_condition thr b c with
    | .error e => .error e
    | .ok true => .ok (some (merge_boxes b c, cs))
    | .ok false =>
      match mergeWithTail thr b cs with
      | .error e => .error e
      | .ok (some (m, cs')) => .ok (some (m, c :: cs'))
      | .ok none => .ok none

/-- One full pass of the pairwise scan: find the first pair (i, j) with i < j
in scan order that merges, perform the merge (the merged box replaces
position i and position j is removed), or report that no pair merges. -/
def mergeScan (thr : ℚ) : List PBox → Except Unit (Option (List PBox))
  | [] => .ok none
  | b :: rest =>
    match mergeWithTail thr b rest with
    | .error e => .error e
    | .ok (some (m, rest')) => .ok (some (m :: rest'))
    | .ok none =>
      match mergeScan thr rest with
      | .error e => .error e
      | .ok (some rest') => .ok (some (b :: rest'))
      | .ok none => .ok none

/-- The while merged loop of merge_overlapping_boxes: rescan from the start
after every merge until a full pass finds nothing.  Each merge shortens the
list by one (mergeScan_length below), so a fuel equal to the list length is
never exhausted before the fixpoint and mergeLoop_scan_none certifies that
the result admits no further merge; the source while loop terminates for the
same reason. -/
def mergeLoop (thr : ℚ) : Nat → List PBox → Except Unit (List PBox)
  | 0, boxes => .ok boxes
  | fuel + 1, boxes =>
    match mergeScan thr boxes with
    | .error e => .error e
    | .ok none => .ok boxes
    | .ok (some boxes') => mergeLoop thr fuel boxes'

/-- merge_overlapping_boxes(boxes, overlap_threshold): merge boxes that
overlap by more than the threshold and are on the same row, repeating the
deterministic pairwise scan until a fixpoint.  The source call uses
overlap_threshold = 0.3. -/
def merge_overlapping_boxes (thr : ℚ) (boxes : List PBox) : Except Unit (List PBox) :=
  if boxes.length ≤ 1 then .ok boxes
  else mergeLoop thr boxes.length boxes

/-- Membership of a point in a box, with the usual half-open convention so
that lattice points count unit cells of the plane. -/
def coveredPt (b : PBox) (px py : ℚ) : Prop :=
  b.x1 ≤ px ∧ px < b.x2 ∧ b.y1 ≤ py ∧ py < b.y2

instance (b : PBox) (px py : ℚ) : Decidable (coveredPt b px py) := by
  unfold coveredPt; infer_instance

/-- A point is covered by a box list when some box contains it. -/
def coveredB (boxes : List PBox) (px py : ℚ) : Bool :=
  boxes.any fun b => decide (coveredPt b px py)

/-- Area of the union of a list of boxes, measured as the number of unit
lattice cells of the W x H grid whose lower corner is covered.  For boxes
with integer coordinates inside the grid this is exactly the geometric area
of the union. -/
def unionCellArea (W H : Nat) (boxes : List PBox) : Nat :=
  ((Finset.range W ×ˢ Finset.range H).filter
    (fun p => coveredB boxes (p.1 : ℚ) (p.2 : ℚ))).card

/-- Accessor used throughout the DAG builder: boxes[i]. -/
def boxAt (boxes : List PBox) (i : Nat) : PBox :=
  boxes.getD i default

/-- centers[i][0] in build_panel_dag: the x-coordinate of box i's centroid. -/
def center_x (boxes : List PBox) (i : Nat) : ℚ :=
  ((boxAt boxes i).x1 + (boxAt boxes i).x2) / 2

/-- The same-row test of build_panel_dag: the vertical overlap of boxes i
and j exceeds 30 percent of the shorter height. -/
def SameRowDag (boxes : List PBox) (i j : Nat) : Prop :=
  min (boxAt boxes i).y2 (boxAt boxes j).y2 - max (boxAt boxes i).y1 (boxAt boxes j).y1 >
    min ((boxAt boxes i).y2 - (boxAt boxes i).y1) ((boxAt boxes j).y2 - (boxAt boxes j).y1) * (3/10)

instance (boxes : List PBox) (i j : Nat) : Decidable (SameRowDag boxes i j) := by
  unfold SameRowDag; infer_instance

/-- same_row[i] in build_panel_dag: the indices j distinct from i whose box
shares a row with box i under the 0.3 threshold, in increasing order. -/
def same_row_list (boxes : List PBox) (i : Nat) : List Nat :=
  (List.range boxes.length).filter fun j => decide (j ≠ i) && decide (SameRowDag boxes i j)

/-- The edge test of build_panel_dag for an ordered pair (i, j) with i and j
distinct: rule 1 (i strictly above j, only when not same-row) else rule 2
(same-row and i's centroid strictly to the right of j's). -/
def edgeB (boxes : List PBox) (i j : Nat) : Bool :=
  if (same_row_list boxes i).contains j then
    decide (center_x boxes j < center_x boxes i)
  else
    decide ((boxAt boxes i).y2 < (boxAt boxes j).y1)

/-- adj[i] as built by the double loop of build_panel_dag: each j distinct
from i passing the edge test, appended in increasing order. -/
def adjOf (boxes : List PBox) (i : Nat) : List Nat :=
  (List.range boxes.length).filter fun j => decide (j ≠ i) && edgeB boxes i j

/-- in_degree after the edge construction loop: for each j, the number of
i with an edge i -> j. -/
def indeg0 (boxes : List PBox) : List Int :=
  (List.range boxes.length).map fun j =>
    (((List.range boxes.length).filter fun i => decide (i ≠ j) && edgeB boxes i j).length : Int)

/-- Number of strictly positive entries of an in-degree table; used as part
of the termination measure of the Kahn loop. -/
def posCount (l : List Int) : Nat :=
  l.countP fun x => decide (0 < x)

/-- Processing the out-edges of a popped node u: decrement each successor's
in-degree and append it to the queue when the count reaches exactly zero. -/
def processAdj : List Nat → List Int → List Nat → List Int × List Nat
  | [], indeg, queue => (indeg, queue)
  | v :: vs, indeg, queue =>
    let d := indeg.getD v 0 - 1
    processAdj vs (indeg.set v d) (if d = 0 then queue ++ [v] else queue)

/-- The key ordering used to sort the ready queue: (y1 ascending, then x1
descending), expressed as the lexicographic at-most relation so that a
stable sort reproduces Python's list.sort with that key. -/
def kahnLe (boxes : List PBox) (a b : Nat) : Prop :=
  (boxAt boxes a).y1 < (boxAt boxes b).y1 ∨
    ((boxAt boxes a).y1 = (boxAt boxes b).y1 ∧ -(boxAt boxes a).x1 ≤ -(boxAt boxes b).x1)

instance (boxes : List PBox) : DecidableRel (kahnLe boxes) := fun a b => by
  unfold kahnLe; infer_instance

/-- Kahn's algorithm as in build_panel_dag: while the queue is nonempty,
sort it by (y1, -x1) when it holds more than one node, pop the front,
append it to the order and process its out-edges.  Fuel-indexed; the fuel
used by kahn_order is the exact termination measure (see kahnAux_fuel_eq). -/
def kahnAux (adj : Nat → List Nat) (boxes : List PBox) :
    Nat → List Nat → List Int → List Nat → List Nat
  | 0, _, _, topo => topo
  | fuel + 1, queue, indeg, topo =>
    match queue with
    | [] => topo
    | _ :: _ =>
      match (if 1 < queue.length then queue.insertionSort (kahnLe boxes) else queue) with
      | [] => topo
      | u :: rest =>
        let p := processAdj (adj u) indeg rest
        kahnAux adj boxes fuel p.2 p.1 (topo ++ [u])

/-- The topological order computed by build_panel_dag before the length
check: initial queue of zero in-degree nodes, then the Kahn loop. -/
def kahn_order (boxes : List PBox) : List Nat :=
  let indeg := indeg0 boxes
  let queue := (List.range boxes.length).filter fun i => decide (indeg.getD i 0 = 0)
  kahnAux (adjOf boxes) boxes (queue.length + posCount indeg) queue indeg []

/-- The fallback spatial key ordering: (y1 floor-divided by 50 ascending,
then x1 descending), again as a lexicographic at-most relation. -/
def spatial_le (boxes : List PBox) (a b : Nat) : Prop :=
  Rat.floor ((boxAt boxes a).y1 / 50) < Rat.floor ((boxAt boxes b).y1 / 50) ∨
    (Rat.floor ((boxAt boxes a).y1 / 50) = Rat.floor ((boxAt boxes b).y1 / 50) ∧
      -(boxAt boxes a).x1 ≤ -(boxAt boxes b).x1)

instance (boxes : List PBox) : DecidableRel (spatial_le boxes) := fun a b => by
  unfold spatial_le; infer_instance

/-- build_panel_dag(boxes): for n at most 1 return the trivial order and an
empty adjacency; otherwise run Kahn's algorithm over the rule-built edges
and, when the topological order is incomplete (a cycle), fall back to the
pure spatial sort.  The except handler of the source is unreachable (every
operation in the body is total on numbers), so it is not modelled. -/
def build_panel_dag (boxes : List PBox) : List Nat × (Nat → List Nat) :=
  if boxes.length ≤ 1 then (List.range boxes.length, fun _ => [])
  else if (kahn_order boxes).length ≠ boxes.length then
    ((List.range boxes.length).insertionSort (spatial_le boxes), adjOf boxes)
  else (kahn_order boxes, adjOf boxes)

/-- sorted(list(set(int(g) for g in gutters))): deduplicate and sort the
collected gutter positions. -/
def sortedDedup (l : List Int) : List Int :=
  l.dedup.insertionSort (fun a b => a ≤ b)

/-- Vertical gutter positions: lines whose endpoints' x-delta is below 15
contribute the truncated mean of their x-coordinates. -/
def vertical_gutter_positions (ls : List GLine) : List Int :=
  sortedDedup ((ls.filter fun l => decide (|l.x2 - l.x1| < 15)).map
    fun l => Int.tdiv (l.x1 + l.x2) 2)

/-- Horizontal gutter positions: lines whose endpoints' y-delta is below 15
contribute the truncated mean of their y-coordinates. -/
def horizontal_gutter_positions (ls : List GLine) : List Int :=
  sortedDedup ((ls.filter fun l => decide (|l.y2 - l.y1| < 15)).map
    fun l => Int.tdiv (l.y1 + l.y2) 2)

/-- Vertical gutters qualifying for the right edge of b: strictly beyond x2
and within the width // 15 proximity window. -/
def right_gutters (vg : List Int) (w : Int) (b : PBox) : List Int :=
  vg.filter fun g => decide (b.x2 < (g : ℚ)) && decide (|(g : ℚ) - b.x2| < ((Int.fdiv w 15 : Int) : ℚ))

/-- Vertical gutters qualifying for the left edge of b: strictly before x1
and within the width // 15 proximity window. -/
def left_gutters (vg : List Int) (w : Int) (b : PBox) : List Int :=
  vg.filter fun g => decide ((g : ℚ) < b.x1) && decide (|(g : ℚ) - b.x1| < ((Int.fdiv w 15 : Int) : ℚ))

/-- Horizontal gutters qualifying for the top edge of b. -/
def top_gutters (hg : List Int) (h : Int) (b : PBox) : List Int :=
  hg.filter fun g => decide ((g : ℚ) < b.y1) && decide (|(g : ℚ) - b.y1| < ((Int.fdiv h 15 : Int) : ℚ))

/-- Horizontal gutters qualifying for the bottom edge of b. -/
def bottom_gutters (hg : List Int) (h : Int) (b : PBox) : List Int :=
  hg.filter fun g => decide (b.y2 < (g : ℚ)) && decide (|(g : ℚ) - b.y2| < ((Int.fdiv h 15 : Int) : ℚ))

/-- The per-box body of the refinement loop of detect_gutters_and_refine_boxes:
wide panels (aspect ratio above 2) only have the right edge adjusted; other
panels have both vertical edges adjusted; the top and bottom edges are
adjusted for every panel.  Each adjustment clamps against the current edge
(min for right/bottom, max for left/top). -/
def refine_box (vg hg : List Int) (width height : Int) (b : PBox) : PBox :=
  let aspect := (b.x2 - b.x1) / (b.y2 - b.y1)
  let b1 :=
    if 2 < aspect then
      match (right_gutters vg width b).head? with
      | some g => { b with x2 := min ((g : ℚ) - 1) b.x2 }
      | none => b
    else
      let br :=
        match (right_gutters vg width b).head? with
        | some g => { b with x2 := min ((g : ℚ) - 1) b.x2 }
        | none => b
      match (left_gutters vg width b).getLast? with
      | some g => { br with x1 := max ((g : ℚ) + 1) br.x1 }
      | none => br
  let b2 :=
    match (top_gutters hg height b).getLast? with
    | some g => { b1 with y1 := max ((g : ℚ) + 1) b1.y1 }
    | none => b1
  match (bottom_gutters hg height b).head? with
  | some g => { b2 with y2 := min ((g : ℚ) - 1) b2.y2 }
  | none => b2

/-- detect_gutters_and_refine_boxes(boxes, gray_image).  The cv2 detection
steps are abstracted by the detection parameter: none models any internal
failure of thresholding or line detection (the surrounding try/except then
returns the input), some (vls, hls) gives the raw line segments of the two
HoughLinesP calls (no lines detected = empty lists).  A box of exactly zero
height raises ZeroDivisionError at the aspect-ratio computation, which the
same try/except turns into returning the input unchanged. -/
def detect_gutters_and_refine_boxes (detection : Option (List GLine × List GLine))
    (width height : Int) (boxes : List PBox) : List PBox :=
  if boxes.length ≤ 1 then boxes
  else
    match detection with
    | none => boxes
    | some (vls, hls) =>
      let vg := vertical_gutter_positions vls
      let hg := horizontal_gutter_positions hls
      if boxes.any fun b => decide (b.y2 - b.y1 = 0) then boxes
      else boxes.map (refine_box vg hg width height)

/-- The ink mask of the cropped panel after thresholding (THRESH_BINARY_INV
at 245: a crop pixel is ink when its gray value is at most 245), restricted
to the crop grid.  The image is a function from (row, column) to gray value
and the crop spans [x1, x2) x [y1, y2). -/
def ink_at (img : Int → Int → Int) (b : IBox) (x y : Int) : Bool :=
  decide (0 ≤ x ∧ x < b.x2 - b.x1 ∧ 0 ≤ y ∧ y < b.y2 - b.y1 ∧
    img (b.y1 + y) (b.x1 + x) ≤ 245)

/-- The adaptive morphological kernel size of the shrink-wrap stage. -/
def kernel_size (b : IBox) : Nat :=
  (max 3 (min (Int.fdiv (b.x2 - b.x1) 50) (min (Int.fdiv (b.y2 - b.y1) 50) 7))).toNat

/-- Dilation of the ink mask by the square kernel (anchor at the center;
samples outside the crop contribute nothing, cv2's dilation border). -/
def dilated_at (img : Int → Int → Int) (b : IBox) (x y : Int) : Bool :=
  let k := kernel_size b
  (List.range k).any fun i => (List.range k).any fun j =>
    ink_at img b (x + i - (k / 2 : Nat)) (y + j - (k / 2 : Nat))

/-- Erosion of the dilated mask by the same kernel (samples outside the
crop count as set, cv2's erosion border), completing the closing. -/
def eroded_at (img : Int → Int → Int) (b : IBox) (x y : Int) : Bool :=
  let k := kernel_size b
  (List.range k).all fun i => (List.range k).all fun j =>
    let sx := x + i - (k / 2 : Nat)
    let sy := y + j - (k / 2 : Nat)
    decide (¬ (0 ≤ sx ∧ sx < b.x2 - b.x1 ∧ 0 ≤ sy ∧ sy < b.y2 - b.y1)) ||
      dilated_at img b sx sy

/-- The ink pixels of the closed mask, as crop-grid coordinates. -/
def ink_pixels (img : Int → Int → Int) (b : IBox) : Finset (Nat × Nat) :=
  (Finset.range (b.x2 - b.x1).toNat ×ˢ Finset.range (b.y2 - b.y1).toNat).filter
    fun p => eroded_at img b (p.1 : Int) (p.2 : Int)

/-- The shrink-wrap of one ordered box: threshold the crop, close the ink
mask, and return the bounding rectangle of the remaining ink translated back
to image coordinates; when no ink pixel survives, return the box unchanged.
cv2.boundingRect yields width max - min + 1 on point sets. -/
def shrink_wrap (img : Int → Int → Int) (b : IBox) : IBox :=
  if h : (ink_pixels img b).Nonempty then
    let xs := (ink_pixels img b).image Prod.fst
    let ys := (ink_pixels img b).image Prod.snd
    let ix := xs.min' (h.image _)
    let iy := ys.min' (h.image _)
    let iw := xs.max' (h.image _) - ix + 1
    let ih := ys.max' (h.image _) - iy + 1
    ⟨b.x1 + ix, b.y1 + iy, b.x1 + ix + iw, b.y1 + iy + ih⟩
  else b

/-- for i, box in enumerate(refined_boxes): the output entries with 1-based
indices and int-cast bboxes. -/
def number_panels : Nat → List PBox → List Panel
  | _, [] => []
  | i, b :: bs => ⟨i + 1, pbox_to_ibox b⟩ :: number_panels (i + 1) bs

/-- The pipeline of main() from the point where raw boxes are known, with
the external collaborators as parameters: dims is the decoded image size
(none when cv2.imread fails), img the grayscale pixel buffer and detection
the gutter line-detection outcome.  Except.error models sys.exit(1): an
exception in the merge stage is NOT caught by any stage-boundary handler and
propagates to the top-level except of main, which exits; only the gutter
stage sits inside its own try/except.  Zero raw detections take the
synthetic-panel path. -/
def main_pipeline (raw : List PBox) (dims : Option (Int × Int))
    (img : Int → Int → Int) (detection : Option (List GLine × List GLine)) :
    Except Unit (List Panel) :=
  if raw.isEmpty then
    match dims with
    | some (w, h) => .ok [⟨1, ⟨5, 5, w - 5, h - 5⟩⟩]
    | none => .ok []
  else
    match dims with
    | none => .error ()
    | some (w, h) =>
      match merge_overlapping_boxes (3/10) raw with
      | .error e => .error e
      | .ok cleaned =>
        let topo := (build_panel_dag cleaned).1
        let ordered := topo.map fun i => boxAt cleaned i
        let shrunk := ordered.map fun b => shrink_wrap img (pbox_to_ibox b)
        let refined := detect_gutters_and_refine_boxes detection w h (shrunk.map ibox_to_pbox)
        .ok (number_panels 0 refined)

/-- A rational box whose four coordinates are integers (denominator 1), as
holds for every box that has passed the shrink-wrap stage's int casts. -/
def IntCoords (b : PBox) : Prop :=
  b.x1.den = 1 ∧ b.y1.den = 1 ∧ b.x2.den = 1 ∧ b.y2.den = 1

instance (b : PBox) : Decidable (IntCoords b) := by
  unfold IntCoords; infer_instance

/-! ## Equation lemmas

Unfolding equations, provable by rfl, used to drive concrete evaluations and
the structural proofs below. -/

theorem mergeWithTail_nil (thr : ℚ) (b : PBox) : mergeWithTail thr b [] = .ok none := rfl

theorem mergeWithTail_cons (thr : ℚ) (b c : PBox) (cs : List PBox) :
    mergeWithTail thr b (c :: cs) =
      match merge_condition thr b c with
      | .error e => .error e
      | .ok true => .ok (some (merge_boxes b c, cs))
      | .ok false =>
        match mergeWithTail thr b cs with
        | .error e => .error e
        | .ok (some (m, cs')) => .ok (some (m, c :: cs'))
        | .ok none => .ok none := rfl

theorem mergeScan_nil (thr : ℚ) : mergeScan thr [] = .ok none := rfl

theorem mergeScan_cons (thr : ℚ) (b : PBox) (rest : List PBox) :
    mergeScan thr (b :: rest) =
      match mergeWithTail thr b rest with
      | .error e => .error e
      | .ok (some (m, rest')) => .ok (some (m :: rest'))
      | .ok none =>
        match mergeScan thr rest with
        | .error e => .error e
        | .ok (some rest') => .ok (some (b :: rest'))
        | .ok none => .ok none := rfl

theorem mergeLoop_zero (thr : ℚ) (boxes : List PBox) : mergeLoop thr 0 boxes = .ok boxes := rfl

theorem mergeLoop_succ (thr : ℚ) (fuel : Nat) (boxes : List PBox) :
    mergeLoop thr (fuel + 1) boxes =
      match mergeScan thr boxes with
      | .error e => .error e
      | .ok none => .ok boxes
      | .ok (some boxes') => mergeLoop thr fuel boxes' := rfl

/-! ## Structure of the merge loop -/

/-- A successful inner-loop merge removes exactly one box from the tail. -/
theorem mergeWithTail_length (thr : ℚ) (b : PBox) :
    ∀ {rest : List PBox} {m : PBox} {rest' : List PBox},
      mergeWithTail thr b rest = .ok (some (m, rest')) → rest'.length + 1 = rest.length := by
  intro rest
  induction rest with
  | nil =>
    intro m rest' h
    rw [mergeWithTail_nil] at h
    simp at h
  | cons c cs ih =>
    intro m rest' h
    rw [mergeWithTail_cons] at h
    split at h
    · simp at h
    · simp only [Except.ok.injEq, Option.some.injEq, Prod.mk.injEq] at h
      simp [← h.2]
    · split at h
      · simp at h
      · next m0 cs' heq =>
        simp only [Except.ok.injEq, Option.some.injEq, Prod.mk.injEq] at h
        have := ih heq
        simp [← h.2, ← this]
      · simp at h

/-- A successful scan pass shortens the list by exactly one. -/
theorem mergeScan_length (thr : ℚ) :
    ∀ {bs bs' : List PBox}, mergeScan thr bs = .ok (some bs') → bs'.length + 1 = bs.length := by
  intro bs
  induction bs with
  | nil =>
    intro bs' h
    rw [mergeScan_nil] at h
    simp at h
  | cons b rest ih =>
    intro bs' h
    rw [mergeScan_cons] at h
    split at h
    · simp at h
    · next m rest' heq =>
      simp only [Except.ok.injEq, Option.some.injEq] at h
      have := mergeWithTail_length thr b heq
      simp [← h, ← this]
    · split at h
      · simp at h
      · next rest' heq =>
        simp only [Except.ok.injEq, Option.some.injEq] at h
        have := ih heq
        simp [← h, ← this]
      · simp at h

/-- When the loop returns normally, the result admits no further merge:
the final scan pass found nothing. -/
theorem mergeLoop_scan_none (thr : ℚ) :
    ∀ (fuel : Nat) {boxes r : List PBox}, boxes.length ≤ fuel →
      mergeLoop thr fuel boxes = .ok r → mergeScan thr r = .ok none := by
  intro fuel
  induction fuel with
  | zero =>
    intro boxes r hlen h
    rw [mergeLoop_zero] at h
    simp only [Except.ok.injEq] at h
    subst h
    have : boxes = [] := List.length_eq_zero.mp (by omega)
    subst this
    exact mergeScan_nil thr
  | succ fuel ih =>
    intro boxes r hlen h
    rw [mergeLoop_succ] at h
    split at h
    · simp at h
    · next heq =>
      simp only [Except.ok.injEq] at h
      subst h
      exact heq
    · next boxes' heq =>
      have hl := mergeScan_length thr heq
      exact ih (by omega) h

/-- C4 (claim confirmed): merge_overlapping_boxes is idempotent whenever it
returns normally: applying it to its own output returns that output. -/
theorem C4_merge_idempotent (thr : ℚ) (B r : List PBox)
    (h : merge_overlapping_boxes thr B = .ok r) :
    merge_overlapping_boxes thr r = .ok r := by
  unfold merge_overlapping_boxes at h ⊢
  by_cases h1 : B.length ≤ 1
  · rw [if_pos h1] at h
    simp only [Except.ok.injEq] at h
    subst h
    rw [if_pos h1]
  · rw [if_neg h1] at h
    have hnone := mergeLoop_scan_none thr B.length (le_refl _) h
    by_cases h2 : r.length ≤ 1
    · rw [if_pos h2]
    · rw [if_neg h2]
      have : r.length = (r.length - 1) + 1 := by omega
      rw [this, mergeLoop_succ, hnone]

/-! ## Coverage through merging (C2) -/

/-- The merged box covers every point either input box covers. -/
theorem merge_boxes_covers {b c : PBox} {px py : ℚ}
    (h : coveredPt b px py ∨ coveredPt c px py) :
    coveredPt (merge_boxes b c) px py := by
  unfold coveredPt merge_boxes at *
  rcases h with h | h
  · exact ⟨le_trans (min_le_left _ _) h.1, lt_of_lt_of_le h.2.1 (le_max_left _ _),
      le_trans (min_le_left _ _) h.2.2.1, lt_of_lt_of_le h.2.2.2 (le_max_left _ _)⟩
  · exact ⟨le_trans (min_le_right _ _) h.1, lt_of_lt_of_le h.2.1 (le_max_right _ _),
      le_trans (min_le_right _ _) h.2.2.1, lt_of_lt_of_le h.2.2.2 (le_max_right _ _)⟩

theorem coveredB_cons {b : PBox} {bs : List PBox} {px py : ℚ} :
    coveredB (b :: bs) px py = true ↔ coveredPt b px py ∨ coveredB bs px py = true := by
  simp [coveredB]

/-- An inner-loop merge step never uncovers a point. -/
theorem mergeWithTail_covers (thr : ℚ) (b : PBox) :
    ∀ {rest : List PBox} {m : PBox} {rest' : List PBox},
      mergeWithTail thr b rest = .ok (some (m, rest')) →
      ∀ px py : ℚ, (coveredPt b px py ∨ coveredB rest px py = true) →
        (coveredPt m px py ∨ coveredB rest' px py = true) := by
  intro rest
  induction rest with
  | nil =>
    intro m rest' h
    rw [mergeWithTail_nil] at h
    simp at h
  | cons c cs ih =>
    intro m rest' h px py hcov
    rw [mergeWithTail_cons] at h
    split at h
    · simp at h
    · simp only [Except.ok.injEq, Option.some.injEq, Prod.mk.injEq] at h
      obtain ⟨rfl, rfl⟩ := h
      rcases hcov with hb | hrest
      · exact Or.inl (merge_boxes_covers (Or.inl hb))
      · rcases coveredB_cons.mp hrest with hc | hcs
        · exact Or.inl (merge_boxes_covers (Or.inr hc))
        · exact Or.inr hcs
    · split at h
      · simp at h
      · next m0 cs' heq =>
        simp only [Except.ok.injEq, Option.some.injEq, Prod.mk.injEq] at h
        obtain ⟨rfl, rfl⟩ := h
        rcases hcov with hb | hrest
        · rcases ih heq px py (Or.inl hb) with hm | hcs'
          · exact Or.inl hm
          · exact Or.inr (coveredB_cons.mpr (Or.inr hcs'))
        · rcases coveredB_cons.mp hrest with hc | hcs
          · exact Or.inr (coveredB_cons.mpr (Or.inl hc))
          · rcases ih heq px py (Or.inr hcs) with hm | hcs'
            · exact Or.inl hm
            · exact Or.inr (coveredB_cons.mpr (Or.inr hcs'))
      · simp at h

/-- A scan pass never uncovers a point. -/
theorem mergeScan_covers (thr : ℚ) :
    ∀ {bs bs' : List PBox}, mergeScan thr bs = .ok (some bs') →
      ∀ px py : ℚ, coveredB bs px py = true → coveredB bs' px py = true := by
  intro bs
  induction bs with
  | nil =>
    intro bs' h
    rw [mergeScan_nil] at h
    simp at h
  | cons b rest ih =>
    intro bs' h px py hcov
    rw [mergeScan_cons] at h
    split at h
    · simp at h
    · next m rest' heq =>
      simp only [Except.ok.injEq, Option.some.injEq] at h
      subst h
      exact coveredB_cons.mpr (mergeWithTail_covers thr b heq px py (coveredB_cons.mp hcov))
    · split at h
      · simp at h
      · next rest' heq =>
        simp only [Except.ok.injEq, Option.some.injEq] at h
        subst h
        rcases coveredB_cons.mp hcov with hb | hrest
        · exact coveredB_cons.mpr (Or.inl hb)
        · exact coveredB_cons.mpr (Or.inr (ih heq px py hrest))
      · simp at h

/-- The merge loop never uncovers a point. -/
theorem mergeLoop_covers (thr : ℚ) :
    ∀ (fuel : Nat) {bs r : List PBox}, mergeLoop thr fuel bs = .ok r →
      ∀ px py : ℚ, coveredB bs px py = true → coveredB r px py = true := by
  intro fuel
  induction fuel with
  | zero =>
    intro bs r h
    rw [mergeLoop_zero] at h
    simp only [Except.ok.injEq] at h
    subst h
    exact fun px py hc => hc
  | succ fuel ih =>
    intro bs r h px py hcov
    rw [mergeLoop_succ] at h
    split at h
    · simp at h
    · simp only [Except.ok.injEq] at h
      subst h
      exact hcov
    · next boxes' heq =>
      exact ih h px py (mergeScan_covers thr heq px py hcov)

/-- merge_overlapping_boxes never uncovers a point. -/
theorem merge_overlapping_boxes_covers {thr : ℚ} {B r : List PBox}
    (h : merge_overlapping_boxes thr B = .ok r) :
    ∀ px py : ℚ, coveredB B px py = true → coveredB r px py = true := by
  unfold merge_overlapping_boxes at h
  split at h
  · simp only [Except.ok.injEq] at h
    subst h
    exact fun px py hc => hc
  · exact mergeLoop_covers thr B.length h

/-- C2 (claim corrected): the union area of the merged boxes is at least the
union area of the input boxes, on every lattice grid; merging can strictly
enlarge the union (see the counterexample), so equality does not hold. -/
theorem C2_union_area_monotone (thr : ℚ) (B r : List PBox)
    (h : merge_overlapping_boxes thr B = .ok r) (W H : Nat) :
    unionCellArea W H B ≤ unionCellArea W H r := by
  unfold unionCellArea
  apply Finset.card_le_card
  intro p hp
  simp only [Finset.mem_filter] at hp ⊢
  exact ⟨hp.1, merge_overlapping_boxes_covers h _ _ hp.2⟩

/-! ## Concrete merge evaluations shared by witnesses and counterexamples -/

/-- Merging [0,0,10,10] with the same-row overlapping [5,2,20,8] produces
their bounding box [0,0,20,10] in one pass; evaluated from the embedding. -/
theorem merge_example_eval :
    merge_overlapping_boxes (3/10) [⟨0,0,10,10⟩, ⟨5,2,20,8⟩] = .ok [⟨0,0,20,10⟩] := by
  have hcc : check_containment ⟨0,0,10,10⟩ ⟨5,2,20,8⟩ = .ok false := by
    norm_num [check_containment, divQ]
  have hc : merge_condition (3/10) ⟨0,0,10,10⟩ ⟨5,2,20,8⟩ = .ok true := by
    simp only [merge_condition, hcc]
    norm_num [divQ]
  have hm : merge_boxes (⟨0,0,10,10⟩ : PBox) ⟨5,2,20,8⟩ = ⟨0,0,20,10⟩ := by
    norm_num [merge_boxes]
  have hscan1 : mergeScan (3/10) [⟨0,0,10,10⟩, ⟨5,2,20,8⟩] = .ok (some [⟨0,0,20,10⟩]) := by
    rw [mergeScan_cons, mergeWithTail_cons, hc, hm]
  have hscan2 : mergeScan (3/10) [(⟨0,0,20,10⟩ : PBox)] = .ok none := by
    rw [mergeScan_cons, mergeWithTail_nil, mergeScan_nil]
  simp only [merge_overlapping_boxes, List.length_cons, List.length_nil]
  norm_num
  rw [show (2 : Nat) = 1 + 1 from rfl, mergeLoop_succ, hscan1]
  simp only []
  rw [show (1 : Nat) = 0 + 1 from rfl, mergeLoop_succ, hscan2]

/-- A zero-width box [5,0,5,10] beside [0,0,10,10] reaches the same-row
overlap division with min(area1, area2) = 0: the stage raises
ZeroDivisionError; evaluated from the embedding. -/
theorem merge_error_eval :
    merge_overlapping_boxes (3/10) [⟨5,0,5,10⟩, ⟨0,0,10,10⟩] = .error () := by
  have hcc : check_containment ⟨5,0,5,10⟩ ⟨0,0,10,10⟩ = .ok false := by
    norm_num [check_containment, divQ]
  have hc : merge_condition (3/10) ⟨5,0,5,10⟩ ⟨0,0,10,10⟩ = .error () := by
    simp only [merge_condition, hcc]
    norm_num [divQ]
  have hscan : mergeScan (3/10) [⟨5,0,5,10⟩, ⟨0,0,10,10⟩] = .error () := by
    rw [mergeScan_cons, mergeWithTail_cons, hc]
  simp only [merge_overlapping_boxes, List.length_cons, List.length_nil]
  norm_num
  rw [show (2 : Nat) = 1 + 1 from rfl, mergeLoop_succ, hscan]

/-- C2 counterexample: merging the two boxes [0,0,10,10] and [5,2,20,8]
yields the single bounding box [0,0,20,10], whose union area (200 cells on
the 20 x 10 grid) strictly exceeds the input union area (160 cells): the
claimed exact equality of union areas fails. -/
theorem C2_counterexample :
    merge_overlapping_boxes (3/10) [⟨0,0,10,10⟩, ⟨5,2,20,8⟩] = .ok [⟨0,0,20,10⟩] ∧
    unionCellArea 20 10 [⟨0,0,10,10⟩, ⟨5,2,20,8⟩] = 160 ∧
    unionCellArea 20 10 [⟨0,0,20,10⟩] = 200 ∧
    unionCellArea 20 10 [(⟨0,0,20,10⟩ : PBox)] ≠
      unionCellArea 20 10 [⟨0,0,10,10⟩, ⟨5,2,20,8⟩] :=
  ⟨merge_example_eval, by decide, by decide, by decide⟩

/-- Witness for C2_union_area_monotone at the concrete merge above. -/
theorem C2_union_area_monotone_witness :
    merge_overlapping_boxes (3/10) [⟨0,0,10,10⟩, ⟨5,2,20,8⟩] = .ok [⟨0,0,20,10⟩] ∧
    unionCellArea 20 10 [⟨0,0,10,10⟩, ⟨5,2,20,8⟩] ≤ unionCellArea 20 10 [⟨0,0,20,10⟩] :=
  ⟨merge_example_eval,
    C2_union_area_monotone (3/10) _ _ merge_example_eval 20 10⟩

/-- Witness for C4_merge_idempotent at the concrete merge above. -/
theorem C4_merge_idempotent_witness :
    merge_overlapping_boxes (3/10) [⟨0,0,10,10⟩, ⟨5,2,20,8⟩] = .ok [⟨0,0,20,10⟩] ∧
    merge_overlapping_boxes (3/10) [⟨0,0,20,10⟩] = .ok [⟨0,0,20,10⟩] :=
  ⟨merge_example_eval, C4_merge_idempotent (3/10) _ _ merge_example_eval⟩

/-! ## C3: exception behaviour of the merge stage -/

/-- C3 (claim corrected): an exception raised inside merge_overlapping_boxes
is NOT caught at a stage boundary; main has no handler between the merge
call and its top-level except, which logs and calls sys.exit(1), so the
pipeline aborts instead of passing the stage input through. -/
theorem C3_merge_exception_aborts (raw : List PBox) (w h : Int)
    (img : Int → Int → Int) (det : Option (List GLine × List GLine))
    (hraw : raw ≠ [])
    (hm : merge_overlapping_boxes (3/10) raw = .error ()) :
    main_pipeline raw (some (w, h)) img det = .error () := by
  cases raw with
  | nil => exact absurd rfl hraw
  | cons a l =>
    simp only [main_pipeline, List.isEmpty_cons, Bool.false_eq_true, if_false, hm]

/-- C3 counterexample: on the concrete input whose first box has zero width,
the merge stage raises (division by zero in the overlap ratio) and the whole
pipeline aborts with an error exit; it does not complete with the stage
input passed through. -/
theorem C3_counterexample :
    merge_overlapping_boxes (3/10) [⟨5,0,5,10⟩, ⟨0,0,10,10⟩] = .error () ∧
    main_pipeline [⟨5,0,5,10⟩, ⟨0,0,10,10⟩] (some (640, 480)) (fun _ _ => 255) none =
      .error () := by
  refine ⟨merge_error_eval, ?_⟩
  simp only [main_pipeline, List.isEmpty_cons, Bool.false_eq_true, if_false, merge_error_eval]

/-- Witness for C3_merge_exception_aborts at the concrete zero-width input. -/
theorem C3_merge_exception_aborts_witness :
    ([⟨5,0,5,10⟩, ⟨0,0,10,10⟩] : List PBox) ≠ [] ∧
    merge_overlapping_boxes (3/10) [⟨5,0,5,10⟩, ⟨0,0,10,10⟩] = .error () ∧
    main_pipeline [⟨5,0,5,10⟩, ⟨0,0,10,10⟩] (some (800, 600)) (fun _ _ => 0) none =
      .error () :=
  ⟨by simp, merge_error_eval,
    C3_merge_exception_aborts _ 800 600 _ none (by simp) merge_error_eval⟩

/-! ## C9: the zero-detection synthetic panel -/

/-- C9 (claim confirmed): with zero raw boxes and a readable image of size
w x h, the pipeline emits exactly one panel of index 1 with bbox
[5, 5, w - 5, h - 5]. -/
theorem C9_zero_detections_synthetic_panel (w h : Int) (img : Int → Int → Int)
    (det : Option (List GLine × List GLine)) :
    main_pipeline [] (some (w, h)) img det = .ok [⟨1, ⟨5, 5, w - 5, h - 5⟩⟩] := rfl

/-! ## C5: the edge rule of build_panel_dag -/

/-- The adjacency returned by build_panel_dag for two or more boxes is the
rule-built adjacency. -/
theorem build_panel_dag_snd {boxes : List PBox} (h2 : 2 ≤ boxes.length) :
    (build_panel_dag boxes).2 = adjOf boxes := by
  unfold build_panel_dag
  rw [if_neg (by omega)]
  split <;> rfl

/-- Membership in same_row[i] coincides with the symmetric same-row
predicate, for indices in range. -/
theorem mem_same_row_list {boxes : List PBox} {i j : Nat}
    (hj : j < boxes.length) (hij : j ≠ i) :
    (same_row_list boxes i).contains j = true ↔ SameRowDag boxes i j := by
  simp [same_row_list, List.mem_filter, List.mem_range, hj, hij]

/-- C5 (claim confirmed): build_panel_dag creates the edge i -> j exactly
when either the boxes are not same-row (0.3 threshold) and i ends strictly
above j's top, or they are same-row and i's centroid is strictly to the
right of j's. -/
theorem C5_dag_edge_iff (boxes : List PBox) (i j : Nat)
    (h2 : 2 ≤ boxes.length) (_hi : i < boxes.length) (hj : j < boxes.length)
    (hij : i ≠ j) :
    j ∈ (build_panel_dag boxes).2 i ↔
      ((¬ SameRowDag boxes i j ∧ (boxAt boxes i).y2 < (boxAt boxes j).y1) ∨
        (SameRowDag boxes i j ∧ center_x boxes j < center_x boxes i)) := by
  rw [build_panel_dag_snd h2]
  unfold adjOf
  rw [List.mem_filter]
  simp only [List.mem_range, hj, true_and, Bool.and_eq_true, decide_eq_true_eq]
  unfold edgeB
  by_cases hS : SameRowDag boxes i j
  · rw [if_pos ((mem_same_row_list hj (Ne.symm hij)).mpr hS)]
    simp [hS, Ne.symm hij]
  · rw [if_neg (by
      intro hc
      exact hS ((mem_same_row_list hj (Ne.symm hij)).mp hc))]
    simp [hS, Ne.symm hij]

/-- Witness for C5_dag_edge_iff: two vertically stacked boxes. -/
theorem C5_dag_edge_iff_witness :
    2 ≤ ([⟨0,0,10,10⟩, ⟨0,20,10,30⟩] : List PBox).length ∧
    (1 ∈ (build_panel_dag [⟨0,0,10,10⟩, ⟨0,20,10,30⟩]).2 0 ↔
      ((¬ SameRowDag [⟨0,0,10,10⟩, ⟨0,20,10,30⟩] 0 1 ∧
          (boxAt [⟨0,0,10,10⟩, ⟨0,20,10,30⟩] 0).y2 < (boxAt [⟨0,0,10,10⟩, ⟨0,20,10,30⟩] 1).y1) ∨
        (SameRowDag [⟨0,0,10,10⟩, ⟨0,20,10,30⟩] 0 1 ∧
          center_x [⟨0,0,10,10⟩, ⟨0,20,10,30⟩] 1 < center_x [⟨0,0,10,10⟩, ⟨0,20,10,30⟩] 0))) :=
  ⟨by simp, C5_dag_edge_iff _ 0 1 (by simp) (by simp) (by simp) (by simp)⟩

/-! ## C6: termination of the Kahn loop and the cycle fallback -/

theorem processAdj_nil (indeg : List Int) (queue : List Nat) :
    processAdj [] indeg queue = (indeg, queue) := rfl

theorem processAdj_cons (v : Nat) (vs : List Nat) (indeg : List Int) (queue : List Nat) :
    processAdj (v :: vs) indeg queue =
      processAdj vs (indeg.set v (indeg.getD v 0 - 1))
        (if indeg.getD v 0 - 1 = 0 then queue ++ [v] else queue) := rfl

theorem kahnAux_zero (adj : Nat → List Nat) (boxes : List PBox)
    (queue : List Nat) (indeg : List Int) (topo : List Nat) :
    kahnAux adj boxes 0 queue indeg topo = topo := rfl

theorem kahnAux_succ_nil (adj : Nat → List Nat) (boxes : List PBox) (fuel : Nat)
    (indeg : List Int) (topo : List Nat) :
    kahnAux adj boxes (fuel + 1) [] indeg topo = topo := rfl

theorem kahnAux_succ_cons (adj : Nat → List Nat) (boxes : List PBox) (fuel : Nat)
    (q0 : Nat) (qs : List Nat) (indeg : List Int) (topo : List Nat) :
    kahnAux adj boxes (fuel + 1) (q0 :: qs) indeg topo =
      match (if 1 < (q0 :: qs).length then (q0 :: qs).insertionSort (kahnLe boxes)
             else q0 :: qs) with
      | [] => topo
      | u :: rest =>
        kahnAux adj boxes fuel (processAdj (adj u) indeg rest).2
          (processAdj (adj u) indeg rest).1 (topo ++ [u]) := rfl

/-- Updating one entry of a list changes a countP tally by swapping the old
entry's contribution for the new one. -/
theorem countP_set_add (p : Int → Bool) :
    ∀ (l : List Int) (v : Nat) (x : Int), v < l.length →
      (l.set v x).countP p + (if p (l.getD v 0) then 1 else 0) =
        l.countP p + (if p x then 1 else 0) := by
  intro l
  induction l with
  | nil => intro v x hv; simp at hv
  | cons a l ih =>
    intro v x hv
    cases v with
    | zero =>
      simp only [List.set, List.getD_cons_zero, List.countP_cons]
      omega
    | succ v =>
      simp only [List.set_cons_succ, List.getD_cons_succ, List.countP_cons]
      have := ih v x (by simpa using hv)
      omega

/-- Processing a popped node's out-edges preserves the Kahn measure:
queue length plus the number of still-positive in-degrees. -/
theorem processAdj_measure :
    ∀ (vs : List Nat) (indeg : List Int) (queue : List Nat),
      (processAdj vs indeg queue).2.length + posCount (processAdj vs indeg queue).1 =
        queue.length + posCount indeg := by
  intro vs
  induction vs with
  | nil => intro indeg queue; rw [processAdj_nil]
  | cons v vs ih =>
    intro indeg queue
    rw [processAdj_cons, ih]
    unfold posCount
    by_cases hv : v < indeg.length
    · have hcp := countP_set_add (fun x => decide (0 < x)) indeg v (indeg.getD v 0 - 1) hv
      by_cases hd : indeg.getD v 0 - 1 = 0
      · have hold : indeg.getD v 0 = 1 := by omega
        rw [if_pos hd]
        simp only [hold] at hcp ⊢
        norm_num at hcp ⊢
        omega
      · rw [if_neg hd]
        by_cases hpos : 0 < indeg.getD v 0 - 1
        · have h1 : 0 < indeg.getD v 0 := by omega
          simp only [decide_eq_true_eq, if_pos h1, if_pos hpos] at hcp
          omega
        · have h1 : ¬ 0 < indeg.getD v 0 := by omega
          simp only [decide_eq_true_eq, if_neg h1, if_neg hpos] at hcp
          omega
    · have hset : indeg.set v (indeg.getD v 0 - 1) = indeg :=
        List.set_eq_of_length_le (by omega)
      have hget : indeg.getD v 0 = 0 := List.getD_eq_default _ _ (by omega)
      rw [hset, hget]
      norm_num

/-- Fuel-independence of the Kahn loop above the exact measure: each
iteration pops one node and processAdj_measure keeps the measure tally, so
the loop reaches the empty queue within the initial measure; the fuel used
by kahn_order therefore never truncates the loop, and the source's while
loop terminates for the same reason. -/
theorem kahnAux_fuel_eq (adj : Nat → List Nat) (boxes : List PBox) :
    ∀ (f g : Nat) (queue : List Nat) (indeg : List Int) (topo : List Nat),
      queue.length + posCount indeg ≤ f → queue.length + posCount indeg ≤ g →
      kahnAux adj boxes f queue indeg topo = kahnAux adj boxes g queue indeg topo := by
  intro f
  induction f with
  | zero =>
    intro g queue indeg topo hf hg
    have hq : queue = [] := List.length_eq_zero.mp (by omega)
    subst hq
    cases g with
    | zero => rfl
    | succ g => rw [kahnAux_zero, kahnAux_succ_nil]
  | succ f ih =>
    intro g queue indeg topo hf hg
    cases queue with
    | nil =>
      cases g with
      | zero => rw [kahnAux_zero, kahnAux_succ_nil]
      | succ g => rw [kahnAux_succ_nil, kahnAux_succ_nil]
    | cons q0 qs =>
      have hg1 : 1 ≤ g := by
        have : 1 ≤ (q0 :: qs).length := by simp
        omega
      obtain ⟨g', rfl⟩ : ∃ g', g = g' + 1 := ⟨g - 1, by omega⟩
      rw [kahnAux_succ_cons, kahnAux_succ_cons]
      have hlen : (if 1 < (q0 :: qs).length then (q0 :: qs).insertionSort (kahnLe boxes)
          else q0 :: qs).length = (q0 :: qs).length := by
        split
        · exact List.length_insertionSort _ _
        · rfl
      cases hq : (if 1 < (q0 :: qs).length then (q0 :: qs).insertionSort (kahnLe boxes)
          else q0 :: qs) with
      | nil => rfl
      | cons u rest =>
        rw [hq] at hlen
        simp only [List.length_cons] at hlen hf hg
        have hm := processAdj_measure (adj u) indeg rest
        simp only []
        apply ih
        · omega
        · omega

/-- C6 (claim confirmed): when the topological pass returns fewer than n
nodes (a cycle), build_panel_dag discards it and returns the spatial sort of
all indices by (floor(y1 / 50) ascending, x1 descending), a full-length
permutation of 0..n-1; the loop itself always terminates (kahnAux_fuel_eq). -/
theorem C6_cycle_fallback (boxes : List PBox) (h2 : 2 ≤ boxes.length)
    (hcyc : (kahn_order boxes).length ≠ boxes.length) :
    (build_panel_dag boxes).1 = (List.range boxes.length).insertionSort (spatial_le boxes) ∧
    ((build_panel_dag boxes).1).Perm (List.range boxes.length) := by
  unfold build_panel_dag
  rw [if_neg (by omega), if_pos hcyc]
  exact ⟨rfl, List.perm_insertionSort _ _⟩

/-- The pairwise rules give the two mutually-above degenerate boxes the
edges 0 -> 1 and 1 -> 0: no node has in-degree zero, the Kahn queue starts
empty and the topological order comes back empty. -/
theorem kahn_cycle_eval : kahn_order [(⟨0,100,10,0⟩ : PBox), ⟨0,101,10,1⟩] = [] := by
  have hr2 : List.range 2 = [0, 1] := by decide
  have hsr0 : same_row_list [(⟨0,100,10,0⟩ : PBox), ⟨0,101,10,1⟩] 0 = [] := by
    simp only [same_row_list, List.length_cons, List.length_nil, hr2]
    norm_num [SameRowDag, boxAt, List.filter]
  have hsr1 : same_row_list [(⟨0,100,10,0⟩ : PBox), ⟨0,101,10,1⟩] 1 = [] := by
    simp only [same_row_list, List.length_cons, List.length_nil, hr2]
    norm_num [SameRowDag, boxAt, List.filter]
  have he01 : edgeB [(⟨0,100,10,0⟩ : PBox), ⟨0,101,10,1⟩] 0 1 = true := by
    rw [edgeB, hsr0]
    norm_num [boxAt]
  have he10 : edgeB [(⟨0,100,10,0⟩ : PBox), ⟨0,101,10,1⟩] 1 0 = true := by
    rw [edgeB, hsr1]
    norm_num [boxAt]
  have hindeg : indeg0 [(⟨0,100,10,0⟩ : PBox), ⟨0,101,10,1⟩] = [1, 1] := by
    simp only [indeg0, List.length_cons, List.length_nil, hr2]
    simp [List.filter, he01, he10]
  simp only [kahn_order, hindeg, List.length_cons, List.length_nil, hr2]
  norm_num [List.filter, posCount]
  rw [show (2 : Nat) = 1 + 1 from rfl, kahnAux_succ_nil]

/-- Witness for C6_cycle_fallback at the concrete two-box cycle. -/
theorem C6_cycle_fallback_witness :
    2 ≤ ([⟨0,100,10,0⟩, ⟨0,101,10,1⟩] : List PBox).length ∧
    (kahn_order [(⟨0,100,10,0⟩ : PBox), ⟨0,101,10,1⟩]).length ≠
      ([⟨0,100,10,0⟩, ⟨0,101,10,1⟩] : List PBox).length ∧
    ((build_panel_dag [(⟨0,100,10,0⟩ : PBox), ⟨0,101,10,1⟩]).1).Perm
      (List.range ([⟨0,100,10,0⟩, ⟨0,101,10,1⟩] : List PBox).length) :=
  ⟨by simp, by rw [kahn_cycle_eval]; simp,
    (C6_cycle_fallback _ (by simp) (by rw [kahn_cycle_eval]; simp)).2⟩

/-! ## Gutter refiner: C7, C1, C10 -/

theorem list_map_id_of {α : Type} (f : α → α) :
    ∀ (l : List α), (∀ b ∈ l, f b = b) → l.map f = l := by
  intro l
  induction l with
  | nil => intro _; rfl
  | cons a l ih =>
    intro h
    simp only [List.map_cons, h a (List.mem_cons_self a l),
      ih fun b hb => h b (List.mem_cons_of_mem a hb)]

/-- With no gutters on either axis the per-box refinement is the identity. -/
theorem refine_box_nil (w h : Int) (b : PBox) : refine_box [] [] w h b = b := by
  simp [refine_box, right_gutters, left_gutters, top_gutters, bottom_gutters]

/-- C7 (claim confirmed): when line detection yields no lines, or fails
internally, the gutter stage returns its input boxes unchanged. -/
theorem C7_no_lines_identity (det : Option (List GLine × List GLine)) (w h : Int)
    (boxes : List PBox) (hdet : det = none ∨ det = some ([], [])) :
    detect_gutters_and_refine_boxes det w h boxes = boxes := by
  rcases hdet with rfl | rfl
  · unfold detect_gutters_and_refine_boxes
    split
    · rfl
    · rfl
  · unfold detect_gutters_and_refine_boxes
    split
    · rfl
    · simp only []
      split
      · rfl
      · exact list_map_id_of _ boxes fun b _ => refine_box_nil w h b

/-- Witness for C7_no_lines_identity: a failed detection on two boxes. -/
theorem C7_no_lines_identity_witness :
    ((none : Option (List GLine × List GLine)) = none ∨
      (none : Option (List GLine × List GLine)) = some ([], [])) ∧
    detect_gutters_and_refine_boxes none 800 600 [⟨0,0,3,3⟩, ⟨4,0,9,3⟩] =
      [⟨0,0,3,3⟩, ⟨4,0,9,3⟩] :=
  ⟨Or.inl rfl, C7_no_lines_identity none 800 600 _ (Or.inl rfl)⟩

/-- C1 (claim corrected): for a non-horizontal box the refined right edge is
min(g - 1, x2) for the nearest qualifying right gutter g, and the refined
left edge is max(g' + 1, x1) for the nearest qualifying left gutter g' - the
adjustment clamps against the original edge and never moves it outward to
the gutter, contrary to the claimed unconditional snap to g - 1 / g' + 1. -/
theorem C1_gutter_snap_clamped (vg hg : List Int) (w h : Int) (b : PBox)
    (hnh : ¬ (2 < (b.x2 - b.x1) / (b.y2 - b.y1))) :
    (∀ g : Int, (right_gutters vg w b).head? = some g →
      (refine_box vg hg w h b).x2 = min ((g : ℚ) - 1) b.x2) ∧
    (∀ g : Int, (left_gutters vg w b).getLast? = some g →
      (refine_box vg hg w h b).x1 = max ((g : ℚ) + 1) b.x1) := by
  unfold refine_box
  simp only [if_neg hnh]
  constructor
  · intro g hgr
    rw [hgr]
    cases hl : (left_gutters vg w b).getLast? <;>
      cases ht : (top_gutters hg h b).getLast? <;>
        cases hb2 : (bottom_gutters hg h b).head? <;>
          simp
  · intro g hgl
    rw [hgl]
    cases hr : (right_gutters vg w b).head? <;>
      cases ht : (top_gutters hg h b).getLast? <;>
        cases hb2 : (bottom_gutters hg h b).head? <;>
          simp

/-- C1 counterexample: the square box [0,0,100,100] (aspect ratio 1) with a
detected vertical gutter at 150 inside the proximity window (width 1500,
window 100) keeps its right edge at 100; the claim demands g - 1 = 149. -/
theorem C1_counterexample :
    ¬ (2 < (((⟨0,0,100,100⟩ : PBox).x2 - (⟨0,0,100,100⟩ : PBox).x1) /
        ((⟨0,0,100,100⟩ : PBox).y2 - (⟨0,0,100,100⟩ : PBox).y1))) ∧
    (right_gutters [150] 1500 ⟨0,0,100,100⟩).head? = some 150 ∧
    (refine_box [150] [] 1500 1000 ⟨0,0,100,100⟩).x2 = 100 ∧
    ((100 : ℚ) ≠ (150 : ℚ) - 1) := by
  refine ⟨by norm_num, ?_, ?_, by norm_num⟩
  · norm_num [right_gutters, List.filter, show Int.fdiv 1500 15 = 100 from by decide]
  · norm_num [refine_box, right_gutters, left_gutters, top_gutters, bottom_gutters,
      List.filter, show Int.fdiv 1500 15 = 100 from by decide]

/-- Witness for C1_gutter_snap_clamped: a box with fractional right edge
100.5 and a gutter at 101, where the clamp really moves the edge to 100. -/
theorem C1_gutter_snap_clamped_witness :
    ¬ (2 < (((⟨0,0,201/2,100⟩ : PBox).x2 - (⟨0,0,201/2,100⟩ : PBox).x1) /
        ((⟨0,0,201/2,100⟩ : PBox).y2 - (⟨0,0,201/2,100⟩ : PBox).y1))) ∧
    (right_gutters [101] 1500 ⟨0,0,201/2,100⟩).head? = some 101 ∧
    (refine_box [101] [] 1500 1000 ⟨0,0,201/2,100⟩).x2 = min ((101 : ℚ) - 1) (201/2) := by
  have hnh : ¬ (2 < (((⟨0,0,201/2,100⟩ : PBox).x2 - (⟨0,0,201/2,100⟩ : PBox).x1) /
      ((⟨0,0,201/2,100⟩ : PBox).y2 - (⟨0,0,201/2,100⟩ : PBox).y1))) := by norm_num
  have hhead : (right_gutters [101] 1500 ⟨0,0,201/2,100⟩).head? = some 101 := by
    norm_num [right_gutters, List.filter, show Int.fdiv 1500 15 = 100 from by decide,
      show |(1 : ℚ)/2| = 1/2 from by rw [abs_of_nonneg]; norm_num]
  exact ⟨hnh, hhead, (C1_gutter_snap_clamped [101] [] 1500 1000 _ hnh).1 101 hhead⟩

/-- Each per-box adjustment clamps against the current edge, so no edge
ever moves outward. -/
theorem refine_box_inward (vg hg : List Int) (w h : Int) (b : PBox) :
    b.x1 ≤ (refine_box vg hg w h b).x1 ∧ b.y1 ≤ (refine_box vg hg w h b).y1 ∧
    (refine_box vg hg w h b).x2 ≤ b.x2 ∧ (refine_box vg hg w h b).y2 ≤ b.y2 := by
  unfold refine_box
  by_cases ha : 2 < (b.x2 - b.x1) / (b.y2 - b.y1)
  · simp only [if_pos ha]
    cases hr : (right_gutters vg w b).head? <;>
      cases ht : (top_gutters hg h b).getLast? <;>
        cases hb2 : (bottom_gutters hg h b).head? <;>
          refine ⟨?_, ?_, ?_, ?_⟩ <;>
            simp [min_le_right, le_max_right]
  · simp only [if_neg ha]
    cases hr : (right_gutters vg w b).head? <;>
      cases hl : (left_gutters vg w b).getLast? <;>
        cases ht : (top_gutters hg h b).getLast? <;>
          cases hb2 : (bottom_gutters hg h b).head? <;>
            refine ⟨?_, ?_, ?_, ?_⟩ <;>
              simp [min_le_right, le_max_right]

theorem int_min_right {q : ℚ} {g : Int} (hden : q.den = 1) (hlt : q < (g : ℚ)) :
    min ((g : ℚ) - 1) q = q := by
  have hq : ((q.num : ℚ)) = q := (Rat.den_eq_one_iff q).mp hden
  have h1 : q.num < g := by
    rw [← hq] at hlt
    exact_mod_cast hlt
  have hle : q.num ≤ g - 1 := by omega
  have h3 : q ≤ (g : ℚ) - 1 := by
    rw [← hq]
    have hcast : ((g - 1 : Int) : ℚ) = (g : ℚ) - 1 := by push_cast; ring
    rw [← hcast]
    exact_mod_cast hle
  exact min_eq_right h3

theorem int_max_right {q : ℚ} {g : Int} (hden : q.den = 1) (hlt : (g : ℚ) < q) :
    max ((g : ℚ) + 1) q = q := by
  have hq : ((q.num : ℚ)) = q := (Rat.den_eq_one_iff q).mp hden
  have h1 : g < q.num := by
    rw [← hq] at hlt
    exact_mod_cast hlt
  have hle : g + 1 ≤ q.num := by omega
  have h3 : (g : ℚ) + 1 ≤ q := by
    rw [← hq]
    have hcast : ((g + 1 : Int) : ℚ) = (g : ℚ) + 1 := by push_cast; ring
    rw [← hcast]
    exact_mod_cast hle
  exact max_eq_right h3

/-- On a box with integer coordinates every qualifying gutter satisfies
g > x2 (so g - 1 >= x2) or g < x1 (so g + 1 <= x1) and the clamps leave the
box unchanged. -/
theorem refine_box_int (vg hg : List Int) (w h : Int) (b : PBox) (hb : IntCoords b) :
    refine_box vg hg w h b = b := by
  obtain ⟨hd1, hd2, hd3, hd4⟩ := hb
  have hR : ∀ g : Int, (right_gutters vg w b).head? = some g →
      min ((g : ℚ) - 1) b.x2 = b.x2 := by
    intro g hg'
    have hmem : g ∈ right_gutters vg w b := List.mem_of_mem_head? (by simp [hg'])
    unfold right_gutters at hmem
    rw [List.mem_filter] at hmem
    have h2 := hmem.2
    simp only [Bool.and_eq_true, decide_eq_true_eq] at h2
    exact int_min_right hd3 h2.1
  have hL : ∀ g : Int, (left_gutters vg w b).getLast? = some g →
      max ((g : ℚ) + 1) b.x1 = b.x1 := by
    intro g hg'
    have hmem : g ∈ left_gutters vg w b := List.mem_of_getLast?_eq_some hg'
    unfold left_gutters at hmem
    rw [List.mem_filter] at hmem
    have h2 := hmem.2
    simp only [Bool.and_eq_true, decide_eq_true_eq] at h2
    exact int_max_right hd1 h2.1
  have hT : ∀ g : Int, (top_gutters hg h b).getLast? = some g →
      max ((g : ℚ) + 1) b.y1 = b.y1 := by
    intro g hg'
    have hmem : g ∈ top_gutters hg h b := List.mem_of_getLast?_eq_some hg'
    unfold top_gutters at hmem
    rw [List.mem_filter] at hmem
    have h2 := hmem.2
    simp only [Bool.and_eq_true, decide_eq_true_eq] at h2
    exact int_max_right hd2 h2.1
  have hB : ∀ g : Int, (bottom_gutters hg h b).head? = some g →
      min ((g : ℚ) - 1) b.y2 = b.y2 := by
    intro g hg'
    have hmem : g ∈ bottom_gutters hg h b := List.mem_of_mem_head? (by simp [hg'])
    unfold bottom_gutters at hmem
    rw [List.mem_filter] at hmem
    have h2 := hmem.2
    simp only [Bool.and_eq_true, decide_eq_true_eq] at h2
    exact int_min_right hd4 h2.1
  unfold refine_box
  by_cases ha : 2 < (b.x2 - b.x1) / (b.y2 - b.y1)
  · simp only [if_pos ha]
    cases hr : (right_gutters vg w b).head? <;>
      cases ht : (top_gutters hg h b).getLast? <;>
        cases hb2 : (bottom_gutters hg h b).head? <;>
          simp only []
    all_goals try rw [hR _ hr]
    all_goals try rw [hT _ ht]
    all_goals try rw [hB _ hb2]
  · simp only [if_neg ha]
    cases hr : (right_gutters vg w b).head? <;>
      cases hl : (left_gutters vg w b).getLast? <;>
        cases ht : (top_gutters hg h b).getLast? <;>
          cases hb2 : (bottom_gutters hg h b).head? <;>
            simp only []
    all_goals try rw [hR _ hr]
    all_goals try rw [hL _ hl]
    all_goals try rw [hT _ ht]
    all_goals try rw [hB _ hb2]

theorem zip_same_eq {α : Type} : ∀ (l : List α) (p : α × α), p ∈ l.zip l → p.1 = p.2 := by
  intro l
  induction l with
  | nil => intro p hp; simp at hp
  | cons a l ih =>
    intro p hp
    rcases List.mem_cons.mp hp with rfl | hp'
    · rfl
    · exact ih p hp'

theorem zip_map_eq {α : Type} (f : α → α) :
    ∀ (l : List α) (p : α × α), p ∈ l.zip (l.map f) → p.2 = f p.1 := by
  intro l
  induction l with
  | nil => intro p hp; simp at hp
  | cons a l ih =>
    intro p hp
    rcases List.mem_cons.mp hp with rfl | hp'
    · rfl
    · exact ih p hp'

/-- C10 (claim confirmed): the gutter stage preserves the list length and
never moves any edge outward (x1 and y1 only grow, x2 and y2 only shrink,
each clamped against the original edge); when every input box has integer
coordinates the whole stage is the identity. -/
theorem C10_refine_never_outward (det : Option (List GLine × List GLine))
    (w h : Int) (boxes : List PBox) :
    (detect_gutters_and_refine_boxes det w h boxes).length = boxes.length ∧
    (∀ p ∈ boxes.zip (detect_gutters_and_refine_boxes det w h boxes),
      p.1.x1 ≤ p.2.x1 ∧ p.1.y1 ≤ p.2.y1 ∧ p.2.x2 ≤ p.1.x2 ∧ p.2.y2 ≤ p.1.y2) ∧
    ((∀ b ∈ boxes, IntCoords b) → detect_gutters_and_refine_boxes det w h boxes = boxes) := by
  have hid : (∀ p ∈ boxes.zip boxes,
      p.1.x1 ≤ p.2.x1 ∧ p.1.y1 ≤ p.2.y1 ∧ p.2.x2 ≤ p.1.x2 ∧ p.2.y2 ≤ p.1.y2) := by
    intro p hp
    rw [zip_same_eq boxes p hp]
    exact ⟨le_refl _, le_refl _, le_refl _, le_refl _⟩
  unfold detect_gutters_and_refine_boxes
  split
  · exact ⟨rfl, hid, fun _ => rfl⟩
  · cases det with
    | none => exact ⟨rfl, hid, fun _ => rfl⟩
    | some pr =>
      rcases pr with ⟨vls, hls⟩
      simp only []
      split
      · exact ⟨rfl, hid, fun _ => rfl⟩
      · refine ⟨List.length_map _ _, ?_, ?_⟩
        · intro p hp
          rw [zip_map_eq _ boxes p hp]
          obtain ⟨i1, i2, i3, i4⟩ := refine_box_inward
            (vertical_gutter_positions vls) (horizontal_gutter_positions hls) w h p.1
          exact ⟨i1, i2, i3, i4⟩
        · intro hall
          exact list_map_id_of _ boxes fun b hb => refine_box_int _ _ w h b (hall b hb)

/-- Witness for C10_refine_never_outward: two integer boxes with a nearby
vertical gutter line detection. -/
theorem C10_refine_never_outward_witness :
    (∀ b ∈ ([⟨0,0,100,100⟩, ⟨0,200,100,300⟩] : List PBox), IntCoords b) ∧
    detect_gutters_and_refine_boxes (some ([⟨7, 0, 7, 500⟩], [])) 1500 1000
      [⟨0,0,100,100⟩, ⟨0,200,100,300⟩] = [⟨0,0,100,100⟩, ⟨0,200,100,300⟩] :=
  ⟨by decide, (C10_refine_never_outward _ 1500 1000 _).2.2 (by decide)⟩

/-! ## C8: shrink-wrap on a blank crop -/

theorem kernel_size_ge (b : IBox) : 3 ≤ kernel_size b := by
  unfold kernel_size
  have h3 : (3 : Int) ≤ max 3 (min (Int.fdiv (b.x2 - b.x1) 50) (min (Int.fdiv (b.y2 - b.y1) 50) 7)) :=
    le_max_left _ _
  omega

/-- C8 (claim confirmed): on an all-white crop (every pixel strictly above
the 245 ink threshold) the closed ink mask is empty and the shrink-wrap
stage returns the original box unchanged. -/
theorem C8_shrink_wrap_blank (img : Int → Int → Int) (b : IBox)
    (hwhite : ∀ x y : Int, 0 ≤ x → x < b.x2 - b.x1 → 0 ≤ y → y < b.y2 - b.y1 →
      245 < img (b.y1 + y) (b.x1 + x)) :
    shrink_wrap img b = b := by
  have hink : ∀ x y : Int, ink_at img b x y = false := by
    intro x y
    simp only [ink_at, decide_eq_false_iff_not]
    rintro ⟨h1, h2, h3, h4, h5⟩
    have := hwhite x y h1 h2 h3 h4
    omega
  have hdil : ∀ x y : Int, dilated_at img b x y = false := by
    intro x y
    simp [dilated_at, hink]
  have hero : ∀ x y : Int, 0 ≤ x → x < b.x2 - b.x1 → 0 ≤ y → y < b.y2 - b.y1 →
      eroded_at img b x y = false := by
    intro x y h1 h2 h3 h4
    have hk := kernel_size_ge b
    unfold eroded_at
    rw [Bool.eq_false_iff]
    intro hall
    rw [List.all_eq_true] at hall
    have h5 := hall (kernel_size b / 2) (List.mem_range.mpr (by omega))
    rw [List.all_eq_true] at h5
    have h6 := h5 (kernel_size b / 2) (List.mem_range.mpr (by omega))
    have hsx : x + ((kernel_size b / 2 : Nat) : Int) - ((kernel_size b / 2 : Nat) : Int) = x := by
      omega
    have hsy : y + ((kernel_size b / 2 : Nat) : Int) - ((kernel_size b / 2 : Nat) : Int) = y := by
      omega
    simp only [hsx, hsy, hdil, Bool.or_false, decide_eq_true_eq] at h6
    exact h6 ⟨h1, h2, h3, h4⟩
  have hpix : ink_pixels img b = ∅ := by
    unfold ink_pixels
    rw [Finset.filter_eq_empty_iff]
    intro p hp
    rw [Finset.mem_product] at hp
    have hx := Finset.mem_range.mp hp.1
    have hy := Finset.mem_range.mp hp.2
    rw [hero (p.1 : Int) (p.2 : Int) (by omega) (by omega) (by omega) (by omega)]
    simp
  unfold shrink_wrap
  rw [dif_neg]
  rw [hpix]
  exact Finset.not_nonempty_empty

/-- Witness for C8_shrink_wrap_blank: a constant white image. -/
theorem C8_shrink_wrap_blank_witness :
    (∀ x y : Int, 0 ≤ x → x < (10 : Int) - 0 → 0 ≤ y → y < (10 : Int) - 0 →
      245 < (fun _ _ => (255 : Int)) ((0 : Int) + y) ((0 : Int) + x)) ∧
    shrink_wrap (fun _ _ => 255) ⟨0, 0, 10, 10⟩ = ⟨0, 0, 10, 10⟩ := by
  have hw : ∀ x y : Int, 0 ≤ x → x < (10 : Int) - 0 → 0 ≤ y → y < (10 : Int) - 0 →
      245 < (fun _ _ => (255 : Int)) ((0 : Int) + y) ((0 : Int) + x) := by
    intro x y _ _ _ _
    norm_num
  exact ⟨hw, C8_shrink_wrap_blank (fun _ _ => 255) ⟨0, 0, 10, 10⟩ hw⟩
